import Mathlib

/-!
Verification of the FVM kernel capability interface and syscall bridge.

The given sources (`fvm/src/kernel/mod.rs`, `fvm/src/syscalls/{sself,event,rand}.rs`,
`sdk/src/sys/message.rs`) declare the kernel capability traits and the thin syscall
wrappers; the implementing modules (the default kernel, the `blocks` block table and
the memory bridge) are part of this repository but are not among the given files.
Where a claim is decided by such missing code, the corresponding definition is
modelled from the spec, and its doc comment says so.
-/

namespace RefFvm

/-- A content identifier. Modelled from the spec: "a self-describing cryptographic
hash over a block's bytes"; it records the codec, the multihash function and length,
and the digest bytes. -/
structure Cid where
  codec : Nat
  hashFun : Nat
  hashLen : Nat
  digest : List Nat
deriving DecidableEq, Repr

/-- A block table entry: an immutable byte payload tagged with a codec
(`fvm/src/kernel/blocks`, not among the given files; modelled from the spec's
"Block — an immutable byte payload tagged with a codec identifier"). -/
structure Block where
  codec : Nat
  data : List Nat
deriving DecidableEq, Repr

/-- Guest-visible error numbers, from the spec's error-code contract
(`NotFound`, `InvalidHandle`, `BufferTooSmall`, `IllegalArgument`, ...). -/
inductive ErrorNumber where
  | notFound
  | invalidHandle
  | bufferTooSmall
  | illegalArgument
  | forbidden
  | notReachable
  | invalidMultihashSpec
  | outOfGas
deriving DecidableEq, Repr

/-- Per-invocation kernel state. Modelled from the spec's data model (§3): the
block table keyed by small integer handles, the reachable set of CIDs, the actor
state root, the gas counter, the return stack (most-recent-first), the validation
status flag, and the emitted events. -/
structure KernelState where
  blocks : List Block
  reachable : List Cid
  stateRoot : Cid
  gas : Int
  returnStack : List (List Nat)
  validated : Bool
  events : List (List (List Nat))
deriving DecidableEq, Repr

/-- `SelfOps::root`: get the state root (`fvm/src/kernel/mod.rs`). -/
def root (st : KernelState) : Cid :=
  st.stateRoot

/-- `SelfOps::set_root`. Modelled from the spec: the implementation is not among
the given files (only the trait declaration, whose doc reads "This method will
fail if the new state-root isn't reachable"); per the spec, `set_root(x)` succeeds
iff `x` is currently reachable, otherwise it fails and the root is unchanged.
The state is threaded explicitly so that failure visibly leaves it intact. -/
def set_root (st : KernelState) (c : Cid) : Option ErrorNumber × KernelState :=
  if c ∈ st.reachable then (none, { st with stateRoot := c })
  else (some .notReachable, st)

/-- `ReturnOps::return_size` (`fvm/src/kernel/mod.rs`): size of the top element of
the return stack, 0 when non-existent. -/
def return_size (st : KernelState) : Nat :=
  match st.returnStack with
  | [] => 0
  | top :: _ => top.length

/-- `ReturnOps::return_pop`. Modelled from the spec: the implementation is not
among the given files (the trait requires the buffer to be "appropriately sized
according to return_size"); per the spec, popping into a buffer smaller than the
reported size fails without consuming the element, and an adequate buffer receives
the whole payload and removes exactly the top element. The result carries the
copied payload; its length is the returned byte count. -/
def return_pop (st : KernelState) (bufLen : Nat) :
    Except ErrorNumber (List Nat) × KernelState :=
  match st.returnStack with
  | [] => (.error .illegalArgument, st)
  | top :: rest =>
    if top.length ≤ bufLen then (.ok top, { st with returnStack := rest })
    else (.error .bufferTooSmall, st)

/-- `ReturnOps::return_discard`. Modelled from the spec: discards the top element
of the return stack. -/
def return_discard (st : KernelState) : KernelState :=
  { st with returnStack := st.returnStack.tail }

/-- `BlockOps::block_read`. Modelled from the spec: the implementation lives in
the `blocks` module, not among the given files; per the spec, it "fails with
`InvalidHandle` for unknown handles; reading past the end of the block yields a
short copy, never an error". The result is the copied byte list; its length is
the `bytes_copied` return value. -/
def block_read (st : KernelState) (id : Nat) (offset : Nat) (bufLen : Nat) :
    Except ErrorNumber (List Nat) :=
  match st.blocks.get? id with
  | none => .error .invalidHandle
  | some b => .ok ((b.data.drop offset).take bufLen)

/-- The incoming message envelope (`MessageOps`, `fvm/src/kernel/mod.rs`). -/
structure Message where
  caller : Nat
  receiver : Nat
  methodNumber : Nat
  methodParams : Nat
  valueReceived : Nat
deriving DecidableEq, Repr

/-- `MessageOps::msg_value_received` (`fvm/src/kernel/mod.rs`): the u128 value
attached to the message. -/
def msg_value_received (m : Message) : Nat :=
  m.valueReceived

/-- Modelled from the spec: the host-side encoding of `value_received` for the
guest ABI (`sdk/src/sys/message.rs` only declares the import: "Returns the value
that was received, as little-Endian tuple of u64 values to be concatenated in a
u128"). The u128 is split into its low and high little-endian u64 halves. -/
def value_received_split (v : Nat) : Nat × Nat :=
  (v % 2 ^ 64, v / 2 ^ 64 % 2 ^ 64)

/-- Modelled from the spec: the guest-side concatenation of the two little-endian
u64 halves back into a u128. -/
def value_received_concat (lo hi : Nat) : Nat :=
  lo + 2 ^ 64 * hi

/-- `GasOps::charge_gas`. Modelled from the spec: the implementation is not
among the given files (only the trait declaration); per the spec, it deducts the
amount from the gas counter, and if the result would be negative the invocation
is aborted with an out-of-gas fault with no effect retained from the triggering
charge. The diagnostic label never affects semantics and is omitted. -/
def charge_gas (st : KernelState) (compute : Nat) : Option ErrorNumber × KernelState :=
  if st.gas - (compute : Int) < 0 then (some .outOfGas, st)
  else (none, { st with gas := st.gas - (compute : Int) })

/-- Runs a sequence of gas charges in order, stopping at the first failure
(modelled from the spec: "no further host work for this invocation proceeds"). -/
def runCharges (st : KernelState) : List Nat → Option ErrorNumber × KernelState
  | [] => (none, st)
  | c :: rest =>
    match charge_gas st c with
    | (some e, st1) => (some e, st1)
    | (none, st1) => runCharges st1 rest

/-- The state after paying a list of gas charges unconditionally. -/
def chargedState (st : KernelState) (cs : List Nat) : KernelState :=
  { st with gas := st.gas - (cs.sum : Int) }

/-- The number of leading charges of a cost list that a budget `g` can pay. -/
def numCharged (g : Int) : List Nat → Nat
  | [] => 0
  | c :: rest => if g - (c : Int) < 0 then 0 else numCharged (g - (c : Int)) rest + 1

/-- An invocation-level fault. The spec distinguishes guest-recoverable errors
from fatal faults that abort the whole invocation; a validation-policy violation
is the latter. -/
inductive Fault where
  | fatalFault
  | recoverable (code : ErrorNumber)
deriving DecidableEq, Repr

/-- Abstract invocation operations relevant to the validation policy: a
successful caller-validation call (any of the three `ValidationOps` variants) or
a state-mutating operation. -/
inductive InvOp where
  | validateCaller
  | mutateState
deriving DecidableEq, Repr

/-- Modelled from the spec: the per-invocation validation policy
(`ValidationOps` in `fvm/src/kernel/mod.rs` is only a trait declaration, whose
doc notes "Kernel must track validation status"); per the spec, a state-mutating
operation before a successful validation, or a second validation call, is a
policy violation surfaced as a fatal fault, not as a recoverable error. -/
def stepInv (validated : Bool) (op : InvOp) : Except Fault Bool :=
  match op with
  | .validateCaller => if validated then .error .fatalFault else .ok true
  | .mutateState => if validated then .ok true else .error .fatalFault

/-- Runs an invocation's operation sequence from a validation status, stopping
at the first fault. -/
def runInv (validated : Bool) : List InvOp → Except Fault Bool
  | [] => .ok validated
  | op :: rest =>
    match stepInv validated op with
    | .error f => .error f
    | .ok v => runInv v rest

/-- A raw block header, as far as consensus-fault detection inspects it: the
mining actor, the epoch, and the rest of the serialized payload (modelled from
the spec; header deserialization is external to this core). -/
structure BlockHeader where
  miner : Nat
  epoch : Int
  payload : List Nat
deriving DecidableEq, Repr

/-- The consensus-fault categories derivable from two headers. -/
inductive ConsensusFaultType where
  | doubleForkMining
  | timeOffsetMining
deriving DecidableEq, Repr

/-- A populated consensus-fault descriptor: the faulty miner, the epoch of the
fault, and its category. -/
structure ConsensusFault where
  target : Nat
  epoch : Int
  faultKind : ConsensusFaultType
deriving DecidableEq, Repr

/-- Whether a header appears in the current chain at or after the `earliest`
epoch bound; the chain is the list of (header, epoch at which it appears). -/
def inChainAtOrAfter (chain : List (BlockHeader × Int)) (earliest : Int)
    (hd : BlockHeader) : Bool :=
  chain.any fun e => e.1 == hd && decide (earliest ≤ e.2)

/-- `CryptoOps::verify_consensus_fault`. Modelled from the spec: the
implementation is not among the given files (only the trait declaration); per
the spec and the trait doc, it returns "no fault" — never an error — unless it
can establish that the same actor mined both headers, the headers are distinct,
the first header's epoch is at most the second's, and at least one header
appears in the chain at or after `earliest`; only then does it return a
populated fault descriptor. -/
def verify_consensus_fault (chain : List (BlockHeader × Int)) (earliest : Int)
    (h1 h2 : BlockHeader) : Except ErrorNumber (Option ConsensusFault) :=
  if h1.miner ≠ h2.miner then .ok none
  else if h1 = h2 then .ok none
  else if h2.epoch < h1.epoch then .ok none
  else if inChainAtOrAfter chain earliest h1 || inChainAtOrAfter chain earliest h2 then
    .ok (some { target := h1.miner, epoch := h2.epoch,
                faultKind := if h1.epoch = h2.epoch then ConsensusFaultType.doubleForkMining
                             else ConsensusFaultType.timeOffsetMining })
  else .ok none

/-- The multihash specs the kernel accepts for `block_link`. Modelled from the
spec: unsupported (function, length) pairs fail with `InvalidMultihashSpec`; the
concrete allow-list (here blake2b-256, multicodec 0xb220 with 32-byte digests)
is a policy parameter. -/
def supportedMultihash (hashFun : Nat) (hashLen : Nat) : Bool :=
  hashFun == 45570 && hashLen == 32

/-- Modelled from the spec: the digest of a block's bytes under a multihash
function. Hash internals are proof-system internals, out of scope per the spec;
what matters here is that the digest is a fixed deterministic function of
(hash function, hash length, bytes). -/
def multihashDigest (hashFun : Nat) (hashLen : Nat) (data : List Nat) : List Nat :=
  (data.map fun b => (b + hashFun) % 256).take hashLen

/-- Modelled from the spec: the CID minted for a block is "a deterministic
function of (codec, bytes, hash function, hash length)". -/
def mkCid (codec : Nat) (hashFun : Nat) (hashLen : Nat) (data : List Nat) : Cid :=
  { codec := codec, hashFun := hashFun, hashLen := hashLen,
    digest := multihashDigest hashFun hashLen data }

/-- `BlockOps::block_create`. Modelled from the spec: allocates a fresh handle
in the block table for the (codec, bytes) payload without minting a CID. The
size/codec/link limits are external policy parameters (marked SPEC_AUDIT in the
trait doc) and are not modelled. -/
def block_create (st : KernelState) (codec : Nat) (data : List Nat) :
    Nat × KernelState :=
  (st.blocks.length,
    { st with blocks := st.blocks ++ [{ codec := codec, data := data }] })

/-- `BlockOps::block_link`. Modelled from the spec: computes a CID over the
handle's bytes using the specified hash function and length, failing with
`InvalidHandle` for an unknown handle and `InvalidMultihashSpec` for an
unsupported pair; on success the CID is added to the reachable set. -/
def block_link (st : KernelState) (id : Nat) (hashFun : Nat) (hashLen : Nat) :
    Except ErrorNumber (Cid × KernelState) :=
  if supportedMultihash hashFun hashLen then
    match st.blocks.get? id with
    | none => .error .invalidHandle
    | some b =>
      .ok (mkCid b.codec hashFun hashLen b.data,
        { st with reachable := mkCid b.codec hashFun hashLen b.data :: st.reachable })
  else .error .invalidMultihashSpec

/-- A concrete CID used by witnesses. -/
def cidA : Cid :=
  { codec := 113, hashFun := 45570, hashLen := 32, digest := [1, 2, 3] }

/-- A second concrete CID used by witnesses. -/
def cidB : Cid :=
  { codec := 113, hashFun := 45570, hashLen := 32, digest := [4, 5, 6] }

/-- Guest linear memory: the byte range addressable by the invocation. -/
abbrev Memory := List Nat

/-- `Memory::check_bounds` (`fvm/src/syscalls`): validates a guest-supplied
(offset, length) pair against the memory extent before any byte is read or
written (modelled from the spec's memory-bridge invariant; the bridge itself is
not among the given files). -/
def check_bounds (mem : Memory) (off len : Nat) : Bool :=
  decide (off + len ≤ mem.length)

/-- The self-describing byte encoding of a CID. Modelled from the spec: the
exact multiformat layout is external to this core; only the encoded length and
losslessness matter for the syscall bridge. -/
def Cid.toBytes (c : Cid) : List Nat :=
  c.codec :: c.hashFun :: c.hashLen :: c.digest

/-- Writes bytes into memory at an offset (within already-checked bounds),
leaving the rest of memory untouched. -/
def write_at (mem : Memory) (off : Nat) (bytes : List Nat) : Memory :=
  mem.take off ++ bytes ++ mem.drop (off + bytes.length)

/-- `Memory::write_cid`. Modelled from the spec: the memory bridge is not among
the given files; per the spec ("failing with a buffer-too-small status rather
than truncating") and the `root` syscall doc ("If the supplied buffer is
smaller, no value will have been written"), an undersized buffer makes the call
fail without writing, and otherwise the full encoding is written. -/
def write_cid (mem : Memory) (c : Cid) (off len : Nat) :
    Except ErrorNumber Nat × Memory :=
  if (Cid.toBytes c).length ≤ len then
    (.ok (Cid.toBytes c).length, write_at mem off (Cid.toBytes c))
  else (.error .bufferTooSmall, mem)

/-- The `root` syscall (`fvm/src/syscalls/sself.rs`): checks the output window
bounds, reads the state root from the kernel, and encodes it into the guest
buffer via `write_cid`; the guest memory is threaded explicitly. -/
def root_syscall (st : KernelState) (mem : Memory) (off len : Nat) :
    Except ErrorNumber Nat × Memory :=
  if check_bounds mem off len then write_cid mem (root st) off len
  else (.error .illegalArgument, mem)

/-- Strict decoding of `n` length-prefixed entries from a byte stream,
returning the entries and the remaining bytes; any truncated entry fails. -/
def decodeEntries : Nat → List Nat → Option (List (List Nat) × List Nat)
  | 0, rest => some ([], rest)
  | _ + 1, [] => none
  | n + 1, len :: rest =>
    if len ≤ rest.length then
      match decodeEntries n (rest.drop len) with
      | some (es, r) => some (rest.take len :: es, r)
      | none => none
    else none

/-- Modelled from the spec: strict decoding of a DAG-CBOR `ActorEvent` payload
(the codec itself is external to this core; it is modelled as a self-describing
length-prefixed encoding). Malformed encodings — truncated entries or trailing
bytes — yield no event. -/
def decodeActorEvent (bytes : List Nat) : Option (List (List Nat)) :=
  match bytes with
  | [] => none
  | n :: rest =>
    match decodeEntries n rest with
    | some (es, []) => some es
    | _ => none

/-- `Memory::try_slice`: returns the guest bytes designated by an (offset,
length) pair after bounds-checking (modelled from the spec's memory-bridge
invariant). -/
def try_slice (mem : Memory) (off len : Nat) : Except ErrorNumber (List Nat) :=
  if check_bounds mem off len then .ok ((mem.drop off).take len)
  else .error .illegalArgument

/-- `Memory::read_cbor` at `ActorEvent`. Modelled from the spec: the memory
bridge is not among the given files; a malformed encoding fails strictly with
`IllegalArgument`. -/
def read_cbor (mem : Memory) (off len : Nat) :
    Except ErrorNumber (List (List Nat)) :=
  match try_slice mem off len with
  | .error e => .error e
  | .ok bytes =>
    match decodeActorEvent bytes with
    | none => .error .illegalArgument
    | some evt => .ok evt

/-- The kernel effect of a successfully decoded event. Modelled from the spec:
the validated event is recorded by the invocation. -/
def kernel_emit_event (st : KernelState) (evt : List (List Nat)) : KernelState :=
  { st with events := st.events ++ [evt] }

/-- The `emit_event` syscall (`fvm/src/syscalls/event.rs`): reads and strictly
decodes the DAG-CBOR actor event from the guest (offset, length) window via
`read_cbor`, then hands it to the kernel; the kernel state is threaded
explicitly so that failure visibly leaves it intact. -/
def emit_event (st : KernelState) (mem : Memory) (off len : Nat) :
    Except ErrorNumber Unit × KernelState :=
  match read_cbor mem off len with
  | .error e => (.error e, st)
  | .ok evt => (.ok (), kernel_emit_event st evt)

/-- A concrete guest memory used by witnesses. -/
def memEx : Memory :=
  [0, 0, 0, 0, 0, 0, 0, 0]

/-- A concrete header used by witnesses: miner 1000 at epoch 5. -/
def hdrM1 : BlockHeader :=
  { miner := 1000, epoch := 5, payload := [1] }

/-- A concrete header used by witnesses: a distinct header by miner 1000 at
epoch 6. -/
def hdrM2 : BlockHeader :=
  { miner := 1000, epoch := 6, payload := [2] }

/-- A concrete header used by witnesses: a header by a different miner. -/
def hdrOther : BlockHeader :=
  { miner := 2000, epoch := 5, payload := [3] }

/-- A concrete chain used by witnesses: `hdrM1` appears at epoch 5. -/
def chainEx : List (BlockHeader × Int) :=
  [(hdrM1, 5)]

/-- A concrete kernel state used by witnesses. -/
def stA : KernelState :=
  { blocks := [{ codec := 113, data := [10, 20, 30, 40] }]
    reachable := [cidA]
    stateRoot := cidA
    gas := 100
    returnStack := [[7, 8, 9], [1]]
    validated := false
    events := [] }

theorem set_root_ok_iff (st : KernelState) (c : Cid) :
    (set_root st c).1 = none ↔ c ∈ st.reachable := by
  unfold set_root
  by_cases h : c ∈ st.reachable <;> simp [h]

/-- C1: `set_root(x)` succeeds iff `x` is in the current reachable set; when `x`
is not reachable, `set_root` fails and the root observed afterwards is unchanged. -/
theorem set_root_succeeds_iff_reachable (st : KernelState) (c : Cid) :
    ((set_root st c).1 = none ↔ c ∈ st.reachable) ∧
      (c ∉ st.reachable →
        set_root st c = (some .notReachable, st) ∧ root (set_root st c).2 = root st) := by
  refine ⟨set_root_ok_iff st c, fun h => ?_⟩
  unfold set_root
  simp [h]

/-- Witness for C1 at concrete inputs: `cidB` is not reachable in `stA`, so
`set_root` fails there and leaves the root unchanged. -/
theorem set_root_succeeds_iff_reachable_witness :
    ((set_root stA cidB).1 = none ↔ cidB ∈ stA.reachable) ∧
      (set_root stA cidB = (some .notReachable, stA) ∧
        root (set_root stA cidB).2 = root stA) := by
  have h := set_root_succeeds_iff_reachable stA cidB
  exact ⟨h.1, h.2 (by decide)⟩

/-- C5: popping with a buffer smaller than `return_size` fails without removing
the top element; a subsequent pop with an adequate buffer succeeds with exactly
the same payload; popping and discarding always remove exactly the top element. -/
theorem return_pop_small_buffer (st : KernelState) (top : List Nat)
    (rest : List (List Nat)) (h : st.returnStack = top :: rest)
    (small big : Nat) (hsmall : small < return_size st) (hbig : return_size st ≤ big) :
    return_pop st small = (.error .bufferTooSmall, st) ∧
      return_pop (return_pop st small).2 big = (.ok top, { st with returnStack := rest }) ∧
      (return_discard st).returnStack = rest := by
  rw [return_size, h] at hsmall hbig
  have hfail : return_pop st small = (.error .bufferTooSmall, st) := by
    rw [return_pop]
    split
    · simp_all
    · rename_i top2 rest2 heq
      rw [h] at heq
      cases heq
      simp [Nat.not_le.mpr hsmall]
  refine ⟨hfail, ?_, ?_⟩
  · rw [hfail]
    rw [return_pop]
    split
    · simp_all
    · rename_i top2 rest2 heq
      rw [h] at heq
      cases heq
      simp [hbig]
  · simp [return_discard, h]

/-- Witness for C5 at a concrete state: the top element of `stA`'s return stack
has size 3; a pop with buffer size 2 fails and preserves the stack, and a
subsequent pop with buffer size 3 yields the same payload. -/
theorem return_pop_small_buffer_witness :
    return_pop stA 2 = (.error .bufferTooSmall, stA) ∧
      return_pop (return_pop stA 2).2 3 =
        (.ok [7, 8, 9], { stA with returnStack := [[1]] }) ∧
      (return_discard stA).returnStack = [[1]] := by
  exact return_pop_small_buffer stA [7, 8, 9] [[1]] (by decide) 2 3 (by decide) (by decide)

/-- C9: `block_read` fails only with `InvalidHandle`, precisely on unknown
handles; on a known handle it always succeeds, copies at most the bytes remaining
past the offset, and reading past the end yields a zero-byte copy, never an
error. -/
theorem block_read_short_copy (st : KernelState) (id offset bufLen : Nat) :
    (∀ e, block_read st id offset bufLen = .error e →
      e = .invalidHandle ∧ st.blocks.get? id = none) ∧
      (∀ b, st.blocks.get? id = some b →
        block_read st id offset bufLen = .ok ((b.data.drop offset).take bufLen) ∧
          ((b.data.drop offset).take bufLen).length ≤ b.data.length - offset ∧
          (b.data.length ≤ offset → block_read st id offset bufLen = .ok [])) := by
  constructor
  · intro e he
    rw [block_read] at he
    cases hb : st.blocks.get? id with
    | none => rw [hb] at he; exact ⟨by simpa using he.symm, rfl⟩
    | some b => rw [hb] at he; simp at he
  · intro b hb
    rw [block_read, hb]
    refine ⟨rfl, ?_, ?_⟩
    · have hlen : ((b.data.drop offset).take bufLen).length =
          min bufLen (b.data.length - offset) := by simp
      omega
    · intro hpast
      have : b.data.drop offset = [] := List.drop_eq_nil_of_le hpast
      simp [this]

/-- Witness for C9 at concrete inputs: handle 0 of `stA` holds 4 bytes, so a read
at offset 10 succeeds with a zero-byte copy, and a read on unknown handle 5 fails
with `InvalidHandle`. -/
theorem block_read_short_copy_witness :
    (block_read stA 0 10 8 = .ok [] ∧
      block_read stA 5 0 8 = .error .invalidHandle) ∧ stA.blocks.get? 5 = none := by
  have h0 := (block_read_short_copy stA 0 10 8).2 { codec := 113, data := [10, 20, 30, 40] }
      (by decide)
  have h5 := (block_read_short_copy stA 5 0 8).1 .invalidHandle (by rfl)
  exact ⟨⟨h0.2.2 (by decide), by rfl⟩, h5.2⟩

/-- C10: the little-endian u64 split of `msg_value_received` concatenates back to
exactly the kernel's value, for every u128 value. -/
theorem value_received_roundtrip (m : Message) (h : msg_value_received m < 2 ^ 128) :
    value_received_concat (value_received_split (msg_value_received m)).1
      (value_received_split (msg_value_received m)).2 = msg_value_received m := by
  rw [value_received_split, value_received_concat]
  have hdiv : msg_value_received m / 2 ^ 64 < 2 ^ 64 := by
    apply Nat.div_lt_of_lt_mul
    calc msg_value_received m < 2 ^ 128 := h
      _ = 2 ^ 64 * 2 ^ 64 := by norm_num
  rw [Nat.mod_eq_of_lt hdiv]
  omega

/-- Witness for C10 at a concrete message value. -/
theorem value_received_roundtrip_witness :
    value_received_concat
        (value_received_split (msg_value_received
          { caller := 100, receiver := 101, methodNumber := 2, methodParams := 1,
            valueReceived := 2 ^ 100 + 12345 })).1
        (value_received_split (msg_value_received
          { caller := 100, receiver := 101, methodNumber := 2, methodParams := 1,
            valueReceived := 2 ^ 100 + 12345 })).2 =
      msg_value_received
        { caller := 100, receiver := 101, methodNumber := 2, methodParams := 1,
          valueReceived := 2 ^ 100 + 12345 } :=
  value_received_roundtrip _ (by norm_num [msg_value_received])

theorem runCharges_over (st : KernelState) (costs : List Nat)
    (hg : 0 ≤ st.gas) (hover : st.gas < (costs.sum : Int)) :
    runCharges st costs =
      (some .outOfGas, chargedState st (costs.take (numCharged st.gas costs))) := by
  induction costs generalizing st with
  | nil =>
    simp at hover
    omega
  | cons c rest ih =>
    by_cases hc : st.gas - (c : Int) < 0
    · simp [runCharges, charge_gas, hc, numCharged, chargedState]
    · have hg1 : (0 : Int) ≤ st.gas - (c : Int) := by omega
      have hov1 : st.gas - (c : Int) < (rest.sum : Int) := by
        rw [List.sum_cons] at hover
        push_cast at hover ⊢
        omega
      have hstep : runCharges st (c :: rest) =
          runCharges { st with gas := st.gas - (c : Int) } rest := by
        simp [runCharges, charge_gas, hc]
      have ih1 := ih { st with gas := st.gas - (c : Int) } hg1 hov1
      have hnum : numCharged st.gas (c :: rest) =
          numCharged (st.gas - (c : Int)) rest + 1 := by
        simp [numCharged, hc]
      rw [hstep, ih1, hnum, List.take_succ_cons]
      simp only [chargedState, List.sum_cons]
      refine congrArg (Prod.mk (some ErrorNumber.outOfGas)) ?_
      refine congrArg (fun g => KernelState.mk st.blocks st.reachable st.stateRoot g
        st.returnStack st.validated st.events) ?_
      push_cast
      ring

theorem numCharged_spec (g : Int) (costs : List Nat) (hg : 0 ≤ g)
    (hover : g < (costs.sum : Int)) :
    numCharged g costs < costs.length ∧
      ((costs.take (numCharged g costs)).sum : Int) ≤ g ∧
      g < ((costs.take (numCharged g costs + 1)).sum : Int) := by
  induction costs generalizing g with
  | nil =>
    simp at hover
    omega
  | cons c rest ih =>
    by_cases hc : g - (c : Int) < 0
    · refine ⟨by simp [numCharged, hc], ?_, ?_⟩
      · simp [numCharged, hc]
        omega
      · simp [numCharged, hc]
        omega
    · obtain ⟨h1, h2, h3⟩ := ih (g - (c : Int)) (by omega) (by
        rw [List.sum_cons] at hover
        push_cast at hover ⊢
        omega)
      have hnum : numCharged g (c :: rest) = numCharged (g - (c : Int)) rest + 1 := by
        simp [numCharged, hc]
      rw [hnum]
      refine ⟨by simpa using h1, ?_, ?_⟩
      · rw [List.take_succ_cons, List.sum_cons]
        push_cast
        push_cast at h2
        omega
      · rw [List.take_succ_cons, List.sum_cons]
        push_cast
        push_cast at h3
        omega

/-- C2: when the total declared cost of a charge sequence exceeds the starting
budget, the invocation aborts with an out-of-gas fault exactly at the first
charge that would drive the counter negative: the final state reflects precisely
the charges before that point (no partial effect of the triggering charge), the
charges before it fit the budget, the triggering one overdrafts it, and nothing
after it executes. -/
theorem charge_gas_aborts_at_first_overdraft (st : KernelState) (costs : List Nat)
    (hg : 0 ≤ st.gas) (hover : st.gas < (costs.sum : Int)) :
    runCharges st costs =
        (some .outOfGas, chargedState st (costs.take (numCharged st.gas costs))) ∧
      numCharged st.gas costs < costs.length ∧
      ((costs.take (numCharged st.gas costs)).sum : Int) ≤ st.gas ∧
      st.gas < ((costs.take (numCharged st.gas costs + 1)).sum : Int) :=
  ⟨runCharges_over st costs hg hover, numCharged_spec st.gas costs hg hover⟩

/-- Witness for C2 at a concrete budget of 100 and costs [40, 50, 30, 10]: the
run aborts at the third charge, retaining exactly the first two. -/
theorem charge_gas_aborts_at_first_overdraft_witness :
    runCharges stA [40, 50, 30, 10] =
        (some .outOfGas,
          chargedState stA ([40, 50, 30, 10].take (numCharged stA.gas [40, 50, 30, 10]))) ∧
      numCharged stA.gas [40, 50, 30, 10] < [40, 50, 30, 10].length ∧
      ((([40, 50, 30, 10].take (numCharged stA.gas [40, 50, 30, 10])).sum : Nat) : Int) ≤
        stA.gas ∧
      stA.gas <
        ((([40, 50, 30, 10].take (numCharged stA.gas [40, 50, 30, 10] + 1)).sum : Nat) : Int) :=
  charge_gas_aborts_at_first_overdraft stA [40, 50, 30, 10] (by decide) (by decide)

theorem runInv_skips_mutations (mids : List InvOp) (h : InvOp.validateCaller ∉ mids) :
    ∀ l, runInv true (mids ++ l) = runInv true l := by
  induction mids with
  | nil => intro l; rfl
  | cons m mids2 ih =>
    intro l
    have hm : m = .mutateState := by
      cases m
      · exact absurd (List.mem_cons_self _ _) h
      · rfl
    subst hm
    have h2 : InvOp.validateCaller ∉ mids2 := fun hx => h (List.mem_cons_of_mem _ hx)
    calc runInv true ((InvOp.mutateState :: mids2) ++ l) = runInv true (mids2 ++ l) := by
          simp [runInv, stepInv]
      _ = runInv true l := ih h2 l

/-- C3: a state-mutating operation attempted before any successful validation
call fails the invocation with a fatal fault; one successful validation followed
by mutations is accepted; a second validation call in the same invocation is
likewise a fatal fault — and a fatal fault is distinct from every recoverable
error. -/
theorem validation_policy (pre mids rest tail : List InvOp)
    (hpre : InvOp.validateCaller ∉ pre) (hmids : InvOp.validateCaller ∉ mids) :
    runInv false (pre ++ .mutateState :: tail) = .error .fatalFault ∧
      runInv false (.validateCaller :: (mids ++ .validateCaller :: rest)) =
        .error .fatalFault ∧
      runInv false (.validateCaller :: mids) = .ok true ∧
      ∀ code, (Fault.fatalFault : Fault) ≠ .recoverable code := by
  refine ⟨?_, ?_, ?_, fun code => by simp⟩
  · cases pre with
    | nil => simp [runInv, stepInv]
    | cons p pre2 =>
      have hp : p = .mutateState := by
        cases p
        · exact absurd (List.mem_cons_self _ _) hpre
        · rfl
      subst hp
      simp [runInv, stepInv]
  · have hfirst : runInv false (InvOp.validateCaller :: (mids ++ .validateCaller :: rest)) =
        runInv true (mids ++ .validateCaller :: rest) := by
      simp [runInv, stepInv]
    rw [hfirst, runInv_skips_mutations mids hmids]
    simp [runInv, stepInv]
  · have hfirst : runInv false (InvOp.validateCaller :: mids) = runInv true mids := by
      simp [runInv, stepInv]
    rw [hfirst, ← List.append_nil mids, runInv_skips_mutations mids hmids]
    rfl

/-- Witness for C3 at concrete operation sequences: a mutation with no prior
validation is fatal, one validation then a mutation succeeds, and a second
validation call is fatal. -/
theorem validation_policy_witness :
    runInv false ([] ++ .mutateState :: [InvOp.validateCaller]) = .error .fatalFault ∧
      runInv false (.validateCaller :: ([InvOp.mutateState] ++ .validateCaller :: [])) =
        .error .fatalFault ∧
      runInv false (.validateCaller :: [InvOp.mutateState]) = .ok true ∧
      ∀ code, (Fault.fatalFault : Fault) ≠ .recoverable code :=
  validation_policy [] [InvOp.mutateState] [] [InvOp.validateCaller] (by decide) (by decide)

/-- C4: consensus-fault detection returns "no fault" — never an error — when
the headers do not prove a fault (in particular for two headers from different
miners and for two identical headers), and it returns a populated fault
descriptor exactly when the same miner signed both headers, the headers are
distinct, the epoch ordering holds, and at least one header is reachable from
the chain no earlier than the given epoch bound. -/
theorem verify_consensus_fault_contract (chain : List (BlockHeader × Int))
    (earliest : Int) (h1 h2 : BlockHeader) :
    (h1.miner ≠ h2.miner → verify_consensus_fault chain earliest h1 h2 = .ok none) ∧
      (h1 = h2 → verify_consensus_fault chain earliest h1 h2 = .ok none) ∧
      (∀ e, verify_consensus_fault chain earliest h1 h2 ≠ .error e) ∧
      (∀ f, verify_consensus_fault chain earliest h1 h2 = .ok (some f) →
        h1.miner = h2.miner ∧ h1 ≠ h2 ∧ h1.epoch ≤ h2.epoch ∧
          (inChainAtOrAfter chain earliest h1 = true ∨
            inChainAtOrAfter chain earliest h2 = true)) ∧
      (h1.miner = h2.miner → h1 ≠ h2 → h1.epoch ≤ h2.epoch →
        (inChainAtOrAfter chain earliest h1 = true ∨
          inChainAtOrAfter chain earliest h2 = true) →
        ∃ f, verify_consensus_fault chain earliest h1 h2 = .ok (some f)) := by
  refine ⟨?_, ?_, ?_, ?_, ?_⟩
  · intro hm
    rw [verify_consensus_fault, if_pos hm]
  · intro he
    rw [verify_consensus_fault]
    by_cases hm : h1.miner ≠ h2.miner
    · rw [if_pos hm]
    · rw [if_neg hm, if_pos he]
  · intro e
    rw [verify_consensus_fault]
    split_ifs <;> simp
  · intro f hf
    rw [verify_consensus_fault] at hf
    split_ifs at hf with hm he ho hr
    · simp at hf
    · simp at hf
    · simp at hf
    · exact ⟨not_not.mp hm, he, not_lt.mp ho, by simpa using hr⟩
    · exact ⟨not_not.mp hm, he, not_lt.mp ho, by simpa using hr⟩
    · simp at hf
  · intro hm he ho hr
    rw [verify_consensus_fault, if_neg (not_not_intro hm), if_neg he,
      if_neg (not_lt.mpr ho), if_pos (by rcases hr with h | h <;> simp [h])]
    exact ⟨_, rfl⟩

/-- Witness for C4 at concrete headers: different miners yield no fault,
identical headers yield no fault, and two distinct reachable headers by the same
miner with ordered epochs yield a populated descriptor. -/
theorem verify_consensus_fault_contract_witness :
    verify_consensus_fault chainEx 0 hdrM1 hdrOther = .ok none ∧
      verify_consensus_fault chainEx 0 hdrM1 hdrM1 = .ok none ∧
      ∃ f, verify_consensus_fault chainEx 0 hdrM1 hdrM2 = .ok (some f) :=
  ⟨(verify_consensus_fault_contract chainEx 0 hdrM1 hdrOther).1 (by decide),
    (verify_consensus_fault_contract chainEx 0 hdrM1 hdrM1).2.1 rfl,
    (verify_consensus_fault_contract chainEx 0 hdrM1 hdrM2).2.2.2.2 (by decide)
      (by decide) (by decide) (Or.inl (by decide))⟩

theorem block_link_lookup (st : KernelState) (id hashFun hashLen : Nat) (b : Block)
    (hsupp : supportedMultihash hashFun hashLen = true)
    (hb : st.blocks.get? id = some b) :
    block_link st id hashFun hashLen = .ok (mkCid b.codec hashFun hashLen b.data,
      { st with reachable := mkCid b.codec hashFun hashLen b.data :: st.reachable }) := by
  rw [block_link, if_pos hsupp, hb]

/-- C6: the CID minted by `block_link` for a block created via `block_create` is
the deterministic function `mkCid` of (codec, bytes, hash function, hash
length), and linking the same handle twice with the same hash parameters yields
identical CIDs. -/
theorem block_link_deterministic (st : KernelState) (codec hashFun hashLen : Nat)
    (data : List Nat) (hsupp : supportedMultihash hashFun hashLen = true) :
    ∀ id st0, block_create st codec data = (id, st0) →
      ∃ st1 st2,
        block_link st0 id hashFun hashLen =
            .ok (mkCid codec hashFun hashLen data, st1) ∧
          block_link st1 id hashFun hashLen =
            .ok (mkCid codec hashFun hashLen data, st2) := by
  intro id st0 hcreate
  rw [block_create] at hcreate
  injection hcreate with hid hst0
  subst hid
  subst hst0
  have hb : (st.blocks ++ [Block.mk codec data]).get? st.blocks.length =
      some (Block.mk codec data) := by
    simp [List.get?_eq_getElem?, List.getElem?_concat_length]
  refine ⟨_, _, block_link_lookup _ _ _ _ (Block.mk codec data) hsupp ?_,
    block_link_lookup _ _ _ _ (Block.mk codec data) hsupp ?_⟩ <;> exact hb

/-- Witness for C6 at concrete inputs: creating a block with codec 113 and
payload [9] in `stA` and linking it twice with blake2b-256 parameters yields the
same CID both times. -/
theorem block_link_deterministic_witness :
    ∃ st1 st2,
      block_link (block_create stA 113 [9]).2 (block_create stA 113 [9]).1 45570 32 =
          .ok (mkCid 113 45570 32 [9], st1) ∧
        block_link st1 (block_create stA 113 [9]).1 45570 32 =
          .ok (mkCid 113 45570 32 [9], st2) :=
  block_link_deterministic stA 113 45570 32 [9] (by decide)
    (block_create stA 113 [9]).1 (block_create stA 113 [9]).2 rfl

/-- C7: when the guest's (in-bounds) output buffer cannot hold the encoded
state root, the `root` syscall fails with a buffer-too-small status and writes
nothing into guest memory; when it can, the full encoding — never a
truncation — is written. -/
theorem root_syscall_no_truncation (st : KernelState) (mem : Memory) (off len : Nat)
    (hb : check_bounds mem off len = true) :
    (len < (Cid.toBytes (root st)).length →
      root_syscall st mem off len = (.error .bufferTooSmall, mem)) ∧
      ((Cid.toBytes (root st)).length ≤ len →
        root_syscall st mem off len =
          (.ok (Cid.toBytes (root st)).length,
            write_at mem off (Cid.toBytes (root st)))) := by
  constructor
  · intro hlt
    rw [root_syscall, if_pos hb, write_cid, if_neg (Nat.not_le.mpr hlt)]
  · intro hle
    rw [root_syscall, if_pos hb, write_cid, if_pos hle]

/-- Witness for C7 at concrete inputs: the root of `stA` encodes to 6 bytes, so
an in-bounds 4-byte buffer makes the syscall fail with buffer-too-small and
leaves memory unchanged. -/
theorem root_syscall_no_truncation_witness :
    check_bounds memEx 0 4 = true ∧
      root_syscall stA memEx 0 4 = (.error .bufferTooSmall, memEx) :=
  ⟨by decide, (root_syscall_no_truncation stA memEx 0 4 (by decide)).1 (by decide)⟩

/-- C8: a malformed DAG-CBOR actor event supplied to `emit_event` through an
in-bounds (offset, length) window fails the syscall with `IllegalArgument` and
leaves the kernel state — in particular the recorded events — unchanged. -/
theorem emit_event_strict (st : KernelState) (mem : Memory) (off len : Nat)
    (hb : check_bounds mem off len = true)
    (hmal : decodeActorEvent ((mem.drop off).take len) = none) :
    emit_event st mem off len = (.error .illegalArgument, st) ∧
      (emit_event st mem off len).2.events = st.events := by
  have hread : read_cbor mem off len = .error .illegalArgument := by
    simp [read_cbor, try_slice, hb, hmal]
  constructor
  · rw [emit_event, hread]
  · rw [emit_event, hread]

/-- Witness for C8 at a concrete malformed payload: the bytes [1, 5] claim one
entry of length 5 with no entry bytes, so `emit_event` fails with
`IllegalArgument` and the events of `stA` are unchanged. -/
theorem emit_event_strict_witness :
    emit_event stA [1, 5] 0 2 = (.error .illegalArgument, stA) ∧
      (emit_event stA [1, 5] 0 2).2.events = stA.events :=
  emit_event_strict stA [1, 5] 0 2 (by decide) (by decide)

end RefFvm
